import Mathlib

set_option maxRecDepth 100000

/-!
Verification development for the create-mcprofile archive-extraction and
download core (src/client/utils/extract.ts and the download module).

Shallow embedding conventions:
* a Node Buffer is a list of byte values (each < 256) of type List Nat;
* Buffer.readUInt16LE / readUInt32LE / subarray become pure functions;
* the JavaScript Map (string keyed, insertion ordered, set replaces the
  value of an existing key) becomes an association list with mapSet and
  mapLookup;
* asynchronous code is modelled by explicit state passing: filesystem
  effects become an explicit action list, progress callbacks become an
  explicit list of emitted pairs;
* a thrown exception becomes Except.error carrying the message.
-/

namespace Mcprofile

/-! ## Byte buffer primitives (Node Buffer, little endian reads) -/

def readUInt8 (b : List Nat) (off : Nat) : Nat := b.getD off 0

def readUInt16LE (b : List Nat) (off : Nat) : Nat :=
  readUInt8 b off + 256 * readUInt8 b (off + 1)

def readUInt32LE (b : List Nat) (off : Nat) : Nat :=
  readUInt8 b off + 256 * readUInt8 b (off + 1) +
    65536 * readUInt8 b (off + 2) + 16777216 * readUInt8 b (off + 3)

def subarray (b : List Nat) (start stop : Nat) : List Nat :=
  (b.drop start).take (stop - start)

/-! ## Constants from extract.ts -/

def minLocalHeaderSize : Nat := 30
def minCdfhSize : Nat := 46
def eocdMinSize : Nat := 22
def centralDirHeader : Nat := 0x02014b50
def eocdSignature : Nat := 0x06054b50
def storeMethod : Nat := 0
def deflateMethod : Nat := 8

/-! ## JavaScript Map model

JavaScript Map.set replaces the value when the key is already present
(keeping its position) and appends otherwise; Map.get returns the value
of the unique binding of the key. -/

def mapSet {α β : Type} [BEq α] (m : List (α × β)) (k : α) (v : β) :
    List (α × β) :=
  if m.any (fun p => p.1 == k) then
    m.map (fun p => if p.1 == k then (k, v) else p)
  else m ++ [(k, v)]

def mapLookup {α β : Type} [BEq α] : List (α × β) → α → Option β
  | [], _ => none
  | p :: rest, k => if p.1 == k then some p.2 else mapLookup rest k

/-! ## findEOCD (extract.ts lines 321-335)

Scans backward from buffer.length - 22 down to buffer.length - maxScanLen
for the end-of-central-directory signature.  The JavaScript loop starts at
a negative offset when the buffer is shorter than 22 bytes and then runs
zero iterations; the embedding guards that case explicitly. -/

def maxScanLen (b : List Nat) : Nat := min b.length (65535 + eocdMinSize)

def findEOCDScan (b : List Nat) (off : Nat) : Nat → Option Nat
  | 0 => if readUInt32LE b off = eocdSignature then some off else none
  | fuel + 1 =>
    if readUInt32LE b off = eocdSignature then some off
    else findEOCDScan b (off - 1) fuel

def findEOCD (b : List Nat) : Option Nat :=
  if b.length < eocdMinSize then none
  else
    findEOCDScan b (b.length - eocdMinSize)
      ((b.length - eocdMinSize) - (b.length - maxScanLen b))

/-! ## getEntriesFromCentralDirectory (extract.ts lines 344-448)

One ZipEntry is the tuple (entryName, compressionType, rawData); the entry
name is kept as its byte list (Buffer.subarray(...).toString() decodes the
same bytes).  The for loop over central directory file headers becomes a
recursion whose fuel is the declared entry count; break becomes returning
the accumulated entries, continue becomes recursing without adding one. -/

def ZipEntryP : Type := List Nat × Nat × List Nat

instance : DecidableEq ZipEntryP := by
  unfold ZipEntryP
  infer_instance

def parseCDLoop (b : List Nat) (centralDirEnd : Nat) :
    Nat → Nat → List (List Nat × ZipEntryP) → List (List Nat × ZipEntryP)
  | _, 0, entries => entries
  | currentOffset, n + 1, entries =>
    if ¬ currentOffset < centralDirEnd then entries
    else if ¬ readUInt32LE b currentOffset = centralDirHeader then entries
    else if centralDirEnd < currentOffset + minCdfhSize then entries
    else
      let compressionType := readUInt16LE b (currentOffset + 10)
      let compressedSize := readUInt32LE b (currentOffset + 20)
      let fileNameLength := readUInt16LE b (currentOffset + 28)
      let extraFieldLength := readUInt16LE b (currentOffset + 30)
      let fileCommentLength := readUInt16LE b (currentOffset + 32)
      let localHeaderOffset := readUInt32LE b (currentOffset + 42)
      let cdfhHeaderEnd := currentOffset + minCdfhSize
      let fileNameEnd := cdfhHeaderEnd + fileNameLength
      let fileCommentEnd := fileNameEnd + extraFieldLength + fileCommentLength
      if centralDirEnd < fileCommentEnd then entries
      else
        let entryName := subarray b cdfhHeaderEnd fileNameEnd
        if b.length < localHeaderOffset + minLocalHeaderSize then
          parseCDLoop b centralDirEnd fileCommentEnd n entries
        else
          let lfhFileNameLength := readUInt16LE b (localHeaderOffset + 26)
          let lfhExtraFieldLength := readUInt16LE b (localHeaderOffset + 28)
          let dataStartOffset := localHeaderOffset + minLocalHeaderSize +
            lfhFileNameLength + lfhExtraFieldLength
          let dataEndOffset := dataStartOffset + compressedSize
          if b.length < dataEndOffset then
            parseCDLoop b centralDirEnd fileCommentEnd n entries
          else
            let rawData := subarray b dataStartOffset dataEndOffset
            parseCDLoop b centralDirEnd fileCommentEnd n
              (mapSet entries entryName (entryName, compressionType, rawData))

def getEntriesFromCentralDirectory (b : List Nat) :
    Except String (List (List Nat × ZipEntryP)) :=
  match findEOCD b with
  | none => .error "End of Central Directory record not found."
  | some eocdOffset =>
    let entryCount := readUInt16LE b (eocdOffset + 10)
    let centralDirSize := readUInt32LE b (eocdOffset + 12)
    let centralDirOffset := readUInt32LE b (eocdOffset + 16)
    if eocdOffset < centralDirOffset + centralDirSize then
      .error "Central Directory information seems corrupt."
    else
      .ok (parseCDLoop b (centralDirOffset + centralDirSize)
        centralDirOffset entryCount [])

/-! ## String helpers used by extractEntry

JavaScript string operations on entry names, modelled on the character
list of the Lean string: replace(/\\/g, slash), includes for the two dot
characters, endsWith for the slash, and the node path helpers join and
dirname restricted to the shapes extractEntry feeds them (a directory
joined with a relative entry name). -/

def replaceBackslashes (s : String) : String :=
  String.mk (s.data.map (fun c => if c = '\\' then '/' else c))

def hasDotDotChars : List Char → Bool
  | [] => false
  | [_] => false
  | c :: d :: rest => (c == '.' && d == '.') || hasDotDotChars (d :: rest)

def includesDotDot (s : String) : Bool := hasDotDotChars s.data

def endsWithSlash (s : String) : Bool :=
  match s.data.getLast? with
  | some '/' => true
  | _ => false

def joinPath (a b : String) : String := a ++ "/" ++ b

def dirnameChars (l : List Char) : List Char :=
  let rest := l.reverse.dropWhile (fun c => ¬ c = '/')
  match rest with
  | [] => ['.']
  | _ :: tail => if tail = [] then ['/'] else tail.reverse

def dirname (s : String) : String := String.mk (dirnameChars s.data)

/-! ## Filesystem effect model

Extraction code performs two kinds of filesystem effects: recursive
directory creation and file writes.  A run of the extractor is summarised
by the ordered list of effects it performs. -/

inductive FSAction
  | mkdirRecursive (path : String)
  | writeFile (path : String) (contents : List Nat)
deriving DecidableEq, Repr

/-! ## decompressEntry (extract.ts lines 215-247)

The zlib inflateRaw callback is external to the repository, so the
decompressor for the DEFLATE case is passed in as a function; every claim
below is either independent of it or instantiated with STORE entries. -/

structure ZipEntryS where
  name : String
  compressionType : Nat
  rawData : List Nat
deriving DecidableEq, Repr

def decompressEntry (inflateRaw : List Nat → Except String (List Nat))
    (compressionType : Nat) (rawData : List Nat) :
    Except String (List Nat) :=
  if compressionType = storeMethod then .ok rawData
  else if compressionType = deflateMethod then
    if rawData.length = 0 then .ok []
    else
      match inflateRaw rawData with
      | .error msg => .error ("Decompression failed: " ++ msg)
      | .ok decompressed => .ok decompressed
  else .error ("Unsupported compression method: " ++ toString compressionType)

/-! ## extractEntry (extract.ts lines 259-312)

A thrown error becomes Except.error; the successful result carries the
filesystem actions performed and the updated createdDirs cache.  An error
result performs no filesystem action: in the source both the unsafe path
throw and the decompression rejection happen before writeFile, and the
mkdir race fallback accepts an existing directory.  The embedding treats
recursive mkdir as always succeeding. -/

def extractEntry (inflateRaw : List Nat → Except String (List Nat))
    (entry : ZipEntryS) (outputDir : String) (createdDirs : List String) :
    Except String (List FSAction × List String) :=
  let safeName := replaceBackslashes entry.name
  if includesDotDot safeName then
    .error ("Rejected potentially unsafe path: " ++ safeName)
  else
    let targetPath := joinPath outputDir safeName
    if endsWithSlash entry.name then .ok ([], createdDirs)
    else
      let parentDir := dirname targetPath
      let mkdirActions : List FSAction × List String :=
        if createdDirs.contains parentDir then ([], createdDirs)
        else ([FSAction.mkdirRecursive parentDir], createdDirs ++ [parentDir])
      match decompressEntry inflateRaw entry.compressionType entry.rawData with
      | .error msg => .error msg
      | .ok decompressedData =>
        .ok (mkdirActions.1 ++ [FSAction.writeFile targetPath decompressedData],
          mkdirActions.2)

/-! ## extract (extract.ts lines 140-204)

The source processes entries through a pool of at most ten concurrent
promises, but the shared counter increment and the progress callback sit
together in the finally block of processEntry and JavaScript runs them
atomically, so the sequence of emitted (current, total) pairs is the one
of the sequential schedule; the embedding folds over the entries in
order.  A failed entry is logged and skipped, never aborting the rest. -/

structure ExtractState where
  current : Nat
  createdDirs : List String
  progress : List (Nat × Nat)
  actions : List FSAction
  loggedErrors : List String
deriving DecidableEq, Repr

structure ExtractResult where
  progress : List (Nat × Nat)
  actions : List FSAction
  loggedErrors : List String
deriving DecidableEq, Repr

def processEntry (inflateRaw : List Nat → Except String (List Nat))
    (outputDir : String) (total : Nat) (st : ExtractState)
    (entry : ZipEntryS) : ExtractState :=
  match extractEntry inflateRaw entry outputDir st.createdDirs with
  | .ok (acts, dirs) =>
    { current := st.current + 1
      createdDirs := dirs
      progress := st.progress ++ [(st.current + 1, total)]
      actions := st.actions ++ acts
      loggedErrors := st.loggedErrors }
  | .error msg =>
    { current := st.current + 1
      createdDirs := st.createdDirs
      progress := st.progress ++ [(st.current + 1, total)]
      actions := st.actions
      loggedErrors := st.loggedErrors ++
        ["Error extracting entry " ++ entry.name ++ ": " ++ msg] }

def extract (inflateRaw : List Nat → Except String (List Nat))
    (entries : List ZipEntryS) (outputDir : String) : ExtractResult :=
  let total := entries.length
  let stInit : ExtractState :=
    { current := 0, createdDirs := [], progress := [(0, total)],
      actions := [], loggedErrors := [] }
  let stFinal := entries.foldl (processEntry inflateRaw outputDir total) stInit
  { progress := stFinal.progress
    actions := stFinal.actions
    loggedErrors := stFinal.loggedErrors }

/-- An inflate function for fixtures whose entries are all stored:
decompressEntry never calls it on a STORE entry. -/
def inflateUnused : List Nat → Except String (List Nat) :=
  fun _ => .error "inflateRaw not invoked"

/-! ## downloadAsync (download module, second revision, lines 202-267)

One HTTP attempt either succeeds (body streamed and file finished), hits
a 404 (logged and returned without creating the file), or throws (network
error, timeout abort, non-404 HTTP status, write error).  The catch block
deletes the partial file and, when the retry flag is on, re-invokes
downloadAsync once with the flag off; it rethrows nothing, so the promise
returned to the caller always resolves.

The embedding indexes attempts by a function from attempt number to
outcome, and carries the retry flag as the number of retries remaining
(true becomes 1, false becomes 0, and the recursive call inside catch
passes 0), which is the structural content of the boolean recursion.
DownloadResult.raised is the exception reaching the caller; the
definition never sets it because the source catch swallows all errors. -/

inductive AttemptOutcome
  | success
  | notFound
  | failure
deriving DecidableEq, Repr

structure DownloadResult where
  attempts : Nat
  fileExists : Bool
  raised : Option String
deriving DecidableEq, Repr

def downloadAsyncGo (outcomes : Nat → AttemptOutcome) (idx : Nat) :
    Nat → DownloadResult
  | 0 =>
    match outcomes idx with
    | .success => ⟨1, true, none⟩
    | .notFound => ⟨1, false, none⟩
    | .failure => ⟨1, false, none⟩
  | _retriesLeft + 1 =>
    match outcomes idx with
    | .success => ⟨1, true, none⟩
    | .notFound => ⟨1, false, none⟩
    | .failure =>
      let r := downloadAsyncGo outcomes (idx + 1) _retriesLeft
      ⟨1 + r.attempts, r.fileExists, r.raised⟩

def downloadAsync (outcomes : Nat → AttemptOutcome) (retry : Bool) :
    DownloadResult :=
  downloadAsyncGo outcomes 0 (if retry then 1 else 0)

/-! ## SHA-1 (node crypto createHash sha1, digest hex)

The hash computed by customCheckSum.  Words are Nat values kept below
2 to the 32 by explicit reduction. -/

def w32 : Nat := 4294967296

def rotl32 (x k : Nat) : Nat := ((x <<< k) ||| (x >>> (32 - k))) % w32

def sha1Pad (msg : List Nat) : List Nat :=
  let l := msg.length
  let k := (120 - (l + 1) % 64) % 64
  let bitLen := 8 * l
  msg ++ [128] ++ List.replicate k 0 ++
    [(bitLen >>> 56) % 256, (bitLen >>> 48) % 256, (bitLen >>> 40) % 256,
      (bitLen >>> 32) % 256, (bitLen >>> 24) % 256, (bitLen >>> 16) % 256,
      (bitLen >>> 8) % 256, bitLen % 256]

def chunks64Go : Nat → List Nat → List (List Nat)
  | 0, _ => []
  | _, [] => []
  | fuel + 1, x :: rest =>
    ((x :: rest).take 64) :: chunks64Go fuel ((x :: rest).drop 64)

/-- Splits a byte list into successive 64 byte chunks; the fuel equals the
length, and every step consumes at least one element, so the fuel never
runs out on a nonempty remainder. -/
def chunks64 (l : List Nat) : List (List Nat) := chunks64Go l.length l

def bytesToWords32BE : List Nat → List Nat
  | b0 :: b1 :: b2 :: b3 :: rest =>
    (((b0 * 256 + b1) * 256 + b2) * 256 + b3) :: bytesToWords32BE rest
  | _ => []

def sha1Extend (acc : List Nat) : Nat → List Nat
  | 0 => acc.reverse
  | n + 1 =>
    sha1Extend
      (rotl32 ((acc.getD 2 0 ^^^ acc.getD 7 0) ^^^
        (acc.getD 13 0 ^^^ acc.getD 15 0)) 1 :: acc) n

structure Sha1State where
  a : Nat
  b : Nat
  c : Nat
  d : Nat
  e : Nat

def sha1F (i b c d : Nat) : Nat :=
  if i < 20 then (b &&& c) ||| ((b ^^^ 4294967295) &&& d)
  else if i < 40 then (b ^^^ c) ^^^ d
  else if i < 60 then ((b &&& c) ||| (b &&& d)) ||| (c &&& d)
  else (b ^^^ c) ^^^ d

def sha1K (i : Nat) : Nat :=
  if i < 20 then 1518500249
  else if i < 40 then 1859775393
  else if i < 60 then 2400959708
  else 3395469782

def sha1Rounds (st : Sha1State) (i : Nat) : List Nat → Sha1State
  | [] => st
  | w :: ws =>
    let temp :=
      (rotl32 st.a 5 + sha1F i st.b st.c st.d + st.e + sha1K i + w) % w32
    sha1Rounds ⟨temp, st.a, rotl32 st.b 30, st.c, st.d⟩ (i + 1) ws

def sha1Chunk (h : List Nat) (chunk : List Nat) : List Nat :=
  let ws := sha1Extend (bytesToWords32BE chunk).reverse 64
  let st := sha1Rounds
    ⟨h.getD 0 0, h.getD 1 0, h.getD 2 0, h.getD 3 0, h.getD 4 0⟩ 0 ws
  [(h.getD 0 0 + st.a) % w32, (h.getD 1 0 + st.b) % w32,
    (h.getD 2 0 + st.c) % w32, (h.getD 3 0 + st.d) % w32,
    (h.getD 4 0 + st.e) % w32]

def hexDigit (n : Nat) : Char :=
  if n < 10 then Char.ofNat (48 + n) else Char.ofNat (87 + n)

def toHex8 (x : Nat) : List Char :=
  [hexDigit ((x >>> 28) % 16), hexDigit ((x >>> 24) % 16),
    hexDigit ((x >>> 20) % 16), hexDigit ((x >>> 16) % 16),
    hexDigit ((x >>> 12) % 16), hexDigit ((x >>> 8) % 16),
    hexDigit ((x >>> 4) % 16), hexDigit (x % 16)]

def sha1Hex (msg : List Nat) : String :=
  let hs := (chunks64 (sha1Pad msg)).foldl sha1Chunk
    [1732584193, 4023233417, 2562383102, 271733878, 3285377520]
  String.mk (hs.foldr (fun h acc => toHex8 h ++ acc) [])

/-! ## customCheckSum (download module, second revision, lines 340-352)

readFile either yields the file bytes or throws; a throw is modelled by
none and yields false after a debug message.  The digest comparison is
the JavaScript strict equality hash === fileHash on the lowercase hex
digest.  The function is async: its JavaScript value is a Promise, which
matters at the call site inside downloadToDirectory. -/

structure JsPromise (α : Type) where
  val : α
deriving DecidableEq, Repr

/-- JavaScript truthiness of a Promise value: every object is truthy. -/
def jsTruthy {α : Type} (_p : JsPromise α) : Bool := true

def customCheckSum (hash : String) (fileContents : Option (List Nat)) :
    JsPromise Bool :=
  match fileContents with
  | none => ⟨false⟩
  | some buffer => ⟨hash == sha1Hex buffer⟩

/-! ## downloadToDirectory, per library task (download module, second
revision, lines 269-338; the checks at lines 317-325)

For one library the body runs, in order:
  if (not existsSync(jarPath/name)) await downloadLibrary(library);
  if (library.downloads?.artifact and not customCheckSum(sha1, path))
    await downloadLibrary(library);
downloadLibrary issues one network request when a url is configured for
the library, none otherwise.  The second condition negates the return
value of customCheckSum without awaiting it, so it negates the Promise
object itself; the embedding applies jsTruthy to the JsPromise exactly as
JavaScript coerces it.  The count returned is the number of network
requests issued for the task. -/

def downloadLibraryRequests (hasUrl : Bool) : Nat := if hasUrl then 1 else 0

def libraryTaskRequests (hasUrl : Bool) (fileExists : Bool)
    (artifactSha1 : Option String) (fileContents : Option (List Nat)) :
    Nat :=
  let first := if ¬ fileExists then downloadLibraryRequests hasUrl else 0
  let second :=
    match artifactSha1 with
    | none => 0
    | some sha =>
      if ¬ jsTruthy (customCheckSum sha fileContents) then
        downloadLibraryRequests hasUrl
      else 0
  first + second

/-! ## Concrete fixtures

dupNameZip is a well formed archive whose central directory declares the
same entry name twice: two local file header blocks (the parser reads
only the name and extra length fields of a local header, at offsets 26
and 28), then two central directory file headers both naming the one
byte entry "a" but pointing at different local headers, then the end of
central directory record.  emptyZip is the 22 byte archive with zero
entries. -/

def u32le (n : Nat) : List Nat :=
  [n % 256, n / 256 % 256, n / 65536 % 256, n / 16777216 % 256]

def u16le (n : Nat) : List Nat := [n % 256, n / 256 % 256]

def lfhBlock (dataByte : Nat) : List Nat :=
  List.replicate 26 0 ++ [1, 0, 0, 0] ++ [97] ++ [dataByte]

def cdfhBlock (lfhOffset : Nat) : List Nat :=
  [80, 75, 1, 2] ++ List.replicate 6 0 ++ [0, 0] ++ List.replicate 8 0 ++
    [1, 0, 0, 0] ++ List.replicate 4 0 ++ [1, 0] ++ [0, 0] ++ [0, 0] ++
    List.replicate 8 0 ++ u32le lfhOffset ++ [97]

def eocdBlock (entryCount cdSize cdOffset : Nat) : List Nat :=
  [80, 75, 5, 6] ++ [0, 0, 0, 0] ++ u16le entryCount ++ u16le entryCount ++
    u32le cdSize ++ u32le cdOffset ++ [0, 0]

def dupNameZip : List Nat :=
  lfhBlock 65 ++ lfhBlock 66 ++ cdfhBlock 0 ++ cdfhBlock 32 ++
    eocdBlock 2 94 64

def emptyZip : List Nat := eocdBlock 0 0 0

/-- The three entry archive of the end to end example: a stored five byte
a.txt, the directory marker b slash, and b/c.txt holding hello world
(stored here; the progress trace does not depend on the method). -/
def entriesThree : List ZipEntryS :=
  [{ name := "a.txt", compressionType := 0,
      rawData := [104, 101, 108, 108, 111] },
    { name := "b/", compressionType := 0, rawData := [] },
    { name := "b/c.txt", compressionType := 0,
      rawData := [104, 101, 108, 108, 111, 32, 119, 111, 114, 108, 100] }]

/-! ## Claim C1 -/

/-- C1: when the destination file already exists, the per library body of
downloadToDirectory issues zero network requests, even when the checksum
does not match, because the negation at line 322 is applied to the
unawaited Promise returned by customCheckSum and every Promise object is
truthy in JavaScript; the claimed single re-download never happens. -/
theorem downloadToDirectory_checksum_mismatch_no_redownload
    (hasUrl : Bool) (sha : String) (contents : Option (List Nat))
    (_hmismatch : (customCheckSum sha contents).val = false) :
    libraryTaskRequests hasUrl true (some sha) contents = 0 := by
  simp [libraryTaskRequests, jsTruthy, downloadLibraryRequests]

/-- C1 witness: a concrete readable file whose digest differs from the
expected hash, with a configured artifact url, still triggers zero
network requests. -/
theorem downloadToDirectory_checksum_mismatch_no_redownload_witness :
    (customCheckSum "0000000000000000000000000000000000000000"
      (some [97, 98, 99])).val = false ∧
    libraryTaskRequests true true
      (some "0000000000000000000000000000000000000000") (some [97, 98, 99]) = 0 :=
  ⟨by decide,
    downloadToDirectory_checksum_mismatch_no_redownload true
      "0000000000000000000000000000000000000000" (some [97, 98, 99])
      (by decide)⟩

/-! ## Claim C2 -/

/-- ASCII lowercasing, used only to state that two hex strings agree up
to letter case. -/
def asciiLowerChar (c : Char) : Char :=
  if 65 ≤ c.toNat ∧ c.toNat ≤ 90 then Char.ofNat (c.toNat + 32) else c

def asciiLower (s : String) : String :=
  String.mk (s.data.map asciiLowerChar)

/-- C2 counterexample: the computed digest of the bytes of abc is the
lowercase a9993e364706816aba3e25717850c26c9cd0d89d, the expected hash is
the same digest in uppercase, yet customCheckSum returns false: the
comparison hash === fileHash is case sensitive. -/
theorem customCheckSum_uppercase_mismatch_cex :
    (customCheckSum "A9993E364706816ABA3E25717850C26C9CD0D89D"
      (some [97, 98, 99])).val = false ∧
    asciiLower "A9993E364706816ABA3E25717850C26C9CD0D89D" =
      sha1Hex [97, 98, 99] := by
  constructor
  · decide
  · decide

/-- C2 amended: customCheckSum compares the computed lowercase hex digest
to expectedHash by exact, case sensitive string equality: on a readable
file it returns true exactly when expectedHash is character for character
the lowercase digest. -/
theorem customCheckSum_exact_equality (hash : String) (contents : List Nat) :
    (customCheckSum hash (some contents)).val = true ↔
      hash = sha1Hex contents := by
  simp [customCheckSum]

/-! ## Claim C3 -/

/-- C3 counterexample: with every attempt failing and retryOnFailure set,
downloadAsync still resolves successfully: two attempts happen, the
partial file is removed, and no error reaches the caller (raised is
none), contradicting the claim that a download failed error surfaces. -/
theorem downloadAsync_swallows_failures_cex :
    downloadAsync (fun _ => AttemptOutcome.failure) true =
      { attempts := 2, fileExists := false, raised := none } := rfl

/-- C3 amended: when every attempt fails, download/downloadAsync resolves
successfully with no surfaced error; the partially written file has been
deleted, so the only caller visible signal is the absence of the
destination file. -/
theorem downloadAsync_exhausted_resolves_cleanly
    (outcomes : Nat → AttemptOutcome) (retry : Bool)
    (hfail : ∀ i, outcomes i = AttemptOutcome.failure) :
    (downloadAsync outcomes retry).raised = none ∧
      (downloadAsync outcomes retry).fileExists = false := by
  cases retry <;>
    simp [downloadAsync, downloadAsyncGo, hfail 0, hfail 1]

/-- C3 amended witness at the constant failure schedule. -/
theorem downloadAsync_exhausted_resolves_cleanly_witness :
    (downloadAsync (fun _ => AttemptOutcome.failure) true).raised = none ∧
      (downloadAsync (fun _ => AttemptOutcome.failure) true).fileExists = false :=
  downloadAsync_exhausted_resolves_cleanly (fun _ => AttemptOutcome.failure)
    true (fun _ => rfl)

/-! ## Claim C5 -/

/-- C5 counterexample: extracting an archive holding only the directory
marker entry b/ performs no filesystem action at all: in extractEntry the
directory skip returns before any mkdir, so no empty directory b is
created under the destination, contrary to the claim. -/
theorem extract_directory_marker_no_mkdir_cex :
    extract inflateUnused
      [{ name := "b/", compressionType := 0, rawData := [] }] "out" =
      { progress := [(0, 1), (1, 1)], actions := [], loggedErrors := [] } := rfl

/-- C5 amended: an entry whose name ends in a slash (and passes the path
safety check) is skipped entirely: extractEntry succeeds with an empty
action list and an unchanged directory cache, writing no file and
creating no directory; directories appear only as parents of extracted
file entries. -/
theorem extractEntry_skips_directory_entries
    (inflateRaw : List Nat → Except String (List Nat)) (entry : ZipEntryS)
    (outputDir : String) (createdDirs : List String)
    (hslash : endsWithSlash entry.name = true)
    (hsafe : includesDotDot (replaceBackslashes entry.name) = false) :
    extractEntry inflateRaw entry outputDir createdDirs =
      .ok ([], createdDirs) := by
  simp [extractEntry, hslash, hsafe]

/-- C5 amended witness at the directory marker entry b/. -/
theorem extractEntry_skips_directory_entries_witness :
    extractEntry inflateUnused
      { name := "b/", compressionType := 0, rawData := [] } "out" [] =
      .ok ([], []) :=
  extractEntry_skips_directory_entries inflateUnused
    { name := "b/", compressionType := 0, rawData := [] } "out" []
    (by decide) (by decide)

/-! ## Claim C6 -/

/-- C6: when every attempt fails, downloadAsync with retryOnFailure true
performs exactly two attempts (the retry re-invoked with retries
disabled), and with retryOnFailure false exactly one attempt. -/
theorem downloadAsync_retry_exactly_once
    (outcomes : Nat → AttemptOutcome)
    (hfail : ∀ i, outcomes i = AttemptOutcome.failure) :
    (downloadAsync outcomes true).attempts = 2 ∧
      (downloadAsync outcomes false).attempts = 1 := by
  constructor <;>
    simp [downloadAsync, downloadAsyncGo, hfail 0, hfail 1]

/-- C6 witness at the constant failure schedule. -/
theorem downloadAsync_retry_exactly_once_witness :
    (downloadAsync (fun _ => AttemptOutcome.failure) true).attempts = 2 ∧
      (downloadAsync (fun _ => AttemptOutcome.failure) false).attempts = 1 :=
  downloadAsync_retry_exactly_once (fun _ => AttemptOutcome.failure)
    (fun _ => rfl)

/-! ## Claim C9 -/

/-- C9: the path safety check of extractEntry rejects every entry whose
backslash normalised name contains the two character substring of two
dots anywhere, segment boundary or not, so a benign file name such as
a..b.txt always fails with the unsafe path error and is never written
(an error result carries no filesystem action). -/
theorem extractEntry_rejects_any_dotdot_substring
    (inflateRaw : List Nat → Except String (List Nat)) (entry : ZipEntryS)
    (outputDir : String) (createdDirs : List String)
    (hdd : hasDotDotChars (replaceBackslashes entry.name).data = true) :
    extractEntry inflateRaw entry outputDir createdDirs =
      .error ("Rejected potentially unsafe path: " ++
        replaceBackslashes entry.name) := by
  have hinc : includesDotDot (replaceBackslashes entry.name) = true := hdd
  simp [extractEntry, hinc]

/-- C9 witness at the benign name a..b.txt. -/
theorem extractEntry_rejects_any_dotdot_substring_witness :
    extractEntry inflateUnused
      { name := "a..b.txt", compressionType := 0, rawData := [] } "out" [] =
      .error "Rejected potentially unsafe path: a..b.txt" :=
  extractEntry_rejects_any_dotdot_substring inflateUnused
    { name := "a..b.txt", compressionType := 0, rawData := [] } "out" []
    (by decide)

/-! ## Claim C7 -/

theorem hasDotDotChars_cons_of (c : Char) (l : List Char)
    (h : hasDotDotChars l = true) : hasDotDotChars (c :: l) = true := by
  cases l with
  | nil => simp [hasDotDotChars] at h
  | cons d rest => simp [hasDotDotChars, h]

theorem hasDotDotChars_of_append (pre post : List Char) :
    hasDotDotChars (pre ++ '.' :: '.' :: post) = true := by
  induction pre with
  | nil => simp [hasDotDotChars]
  | cons c pre2 ih => exact hasDotDotChars_cons_of c (pre2 ++ '.' :: '.' :: post) ih

/-- C7: an entry whose backslash normalised name contains a pure dot dot
path segment (the two dots standing alone between slashes or string
boundaries) is rejected by extractEntry with the unsafe path error; the
throw happens before any directory creation or file write, so an error
result carries no filesystem action. -/
theorem extractEntry_rejects_dotdot_segment
    (inflateRaw : List Nat → Except String (List Nat)) (entry : ZipEntryS)
    (outputDir : String) (createdDirs : List String) (pre post : List Char)
    (hseg : (replaceBackslashes entry.name).data = pre ++ '.' :: '.' :: post)
    (_hpre : pre = [] ∨ ∃ pre2, pre = pre2 ++ ['/'])
    (_hpost : post = [] ∨ ∃ post2, post = '/' :: post2) :
    extractEntry inflateRaw entry outputDir createdDirs =
      .error ("Rejected potentially unsafe path: " ++
        replaceBackslashes entry.name) := by
  have hinc : includesDotDot (replaceBackslashes entry.name) = true := by
    unfold includesDotDot
    rw [hseg]
    exact hasDotDotChars_of_append pre post
  simp [extractEntry, hinc]

/-- C7 witness: the traversal name of the spec example is rejected with
the unsafe path error. -/
theorem extractEntry_rejects_dotdot_segment_witness :
    extractEntry inflateUnused
      { name := "../../evil.txt", compressionType := 0, rawData := [] }
      "out" [] =
      .error "Rejected potentially unsafe path: ../../evil.txt" :=
  extractEntry_rejects_dotdot_segment inflateUnused
    { name := "../../evil.txt", compressionType := 0, rawData := [] }
    "out" [] [] ('/' :: "../evil.txt".data) (by decide) (Or.inl rfl)
    (Or.inr ⟨"../evil.txt".data, rfl⟩)

/-! ## Claim C10 -/

theorem mapLookup_append_of_none {α β : Type} [BEq α] [LawfulBEq α]
    (m : List (α × β)) (k : α) (v : β) (h : mapLookup m k = none) :
    mapLookup (m ++ [(k, v)]) k = some v := by
  induction m with
  | nil => simp [mapLookup]
  | cons p rest ih =>
    cases hp : p.1 == k with
    | true => simp [mapLookup, hp] at h
    | false =>
      simp only [mapLookup, hp, Bool.false_eq_true, if_false] at h
      simp only [List.cons_append, mapLookup, hp, Bool.false_eq_true, if_false]
      exact ih h

theorem mapLookup_replace {α β : Type} [BEq α] [LawfulBEq α]
    (m : List (α × β)) (k : α) (v : β)
    (h : m.any (fun p => p.1 == k) = true) :
    mapLookup (m.map (fun p => if p.1 == k then (k, v) else p)) k =
      some v := by
  induction m with
  | nil => simp at h
  | cons p rest ih =>
    cases hp : p.1 == k with
    | true => simp [mapLookup, hp]
    | false =>
      simp only [List.any_cons, hp, Bool.false_or] at h
      simp only [List.map_cons, hp]
      simp only [Bool.false_eq_true, if_false, mapLookup, hp]
      exact ih h

theorem mapLookup_of_not_any {α β : Type} [BEq α]
    (m : List (α × β)) (k : α)
    (h : m.any (fun p => p.1 == k) = false) :
    mapLookup m k = none := by
  induction m with
  | nil => rfl
  | cons p rest ih =>
    simp only [List.any_cons, Bool.or_eq_false_iff] at h
    simp only [mapLookup, h.1]
    simp only [Bool.false_eq_true, if_false]
    exact ih h.2

/-- Setting a key in the JavaScript Map model always makes the given
value the one a later lookup of that key returns, whether or not the key
was already bound. -/
theorem mapLookup_mapSet_self {α β : Type} [BEq α] [LawfulBEq α]
    (m : List (α × β)) (k : α) (v : β) :
    mapLookup (mapSet m k v) k = some v := by
  unfold mapSet
  cases hany : m.any (fun p => p.1 == k) with
  | true =>
    simp only [hany, if_true]
    exact mapLookup_replace m k v hany
  | false =>
    simp only [hany, Bool.false_eq_true, if_false]
    exact mapLookup_append_of_none m k v (mapLookup_of_not_any m k hany)

/-- C10: the parsed index maps each name to at most one record;
Map.set makes the most recent value of a key the one every lookup sees,
and on the concrete archive dupNameZip, whose central directory lists
the one byte name a twice (first record with payload byte 65, second
with payload byte 66), the parser returns a single binding holding the
record parsed last. -/
theorem parsedIndex_last_occurrence_wins :
    (∀ (m : List (List Nat × ZipEntryP)) (k : List Nat) (v : ZipEntryP),
      mapLookup (mapSet m k v) k = some v) ∧
    getEntriesFromCentralDirectory dupNameZip =
      .ok [([97], ([97], 0, [66]))] :=
  ⟨fun m k v => mapLookup_mapSet_self m k v, rfl⟩

/-! ## Claim C4 -/

/-- The progress pairs emitted by processing n further entries when the
shared counter stands at c. -/
def progressFrom (c total n : Nat) : List (Nat × Nat) :=
  (List.range n).map (fun i => (c + 1 + i, total))

theorem progressFrom_succ (c total n : Nat) :
    progressFrom c total (n + 1) =
      (c + 1, total) :: progressFrom (c + 1) total n := by
  unfold progressFrom
  rw [List.range_succ_eq_map, List.map_cons, List.map_map]
  congr 1
  exact List.map_congr_left
    (fun a _ => by
      simp only [Function.comp_apply]
      exact congrArg (fun x => (x, total)) (by omega))

theorem processEntry_progress
    (inflateRaw : List Nat → Except String (List Nat)) (outputDir : String)
    (total : Nat) (st : ExtractState) (e : ZipEntryS) :
    (processEntry inflateRaw outputDir total st e).progress =
      st.progress ++ [(st.current + 1, total)] ∧
    (processEntry inflateRaw outputDir total st e).current =
      st.current + 1 := by
  cases hE : extractEntry inflateRaw e outputDir st.createdDirs with
  | error msg => simp [processEntry, hE]
  | ok p =>
    obtain ⟨acts, dirs⟩ := p
    simp [processEntry, hE]

theorem extractFold_progress
    (inflateRaw : List Nat → Except String (List Nat)) (outputDir : String)
    (total : Nat) (entries : List ZipEntryS) :
    ∀ st : ExtractState,
      (entries.foldl (processEntry inflateRaw outputDir total) st).progress =
        st.progress ++ progressFrom st.current total entries.length := by
  induction entries with
  | nil =>
    intro st
    simp [progressFrom]
  | cons e es ih =>
    intro st
    rw [List.foldl_cons, ih]
    have hp := processEntry_progress inflateRaw outputDir total st e
    rw [hp.1, hp.2, List.length_cons, progressFrom_succ, List.append_assoc]
    rfl

/-- C4 counterexample: on the three entry archive of the end to end
example, whose middle entry is the directory marker b/, the progress
callbacks are (0,3), (1,3), (2,3), (3,3): the total counts the directory
entry and the directory entry generates a per entry call, so the claimed
trace (0,2), (1,2), (2,2) is not emitted. -/
theorem extract_progress_counts_directories_cex :
    (extract inflateUnused entriesThree "out").progress =
      [(0, 3), (1, 3), (2, 3), (3, 3)] ∧
    ¬ (extract inflateUnused entriesThree "out").progress =
      [(0, 2), (1, 2), (2, 2)] := by
  constructor
  · rfl
  · decide

/-- C4 amended: extract calls the progress callback once at the start
with (0, totalEntries) and once per attempted entry (success or failure)
with (completedCount, totalEntries), where totalEntries is the size of
the parsed entry map and therefore counts directory marker entries, and
directory entries generate per entry calls like any other entry. -/
theorem extract_progress_trace
    (inflateRaw : List Nat → Except String (List Nat))
    (entries : List ZipEntryS) (outputDir : String) :
    (extract inflateRaw entries outputDir).progress =
      (0, entries.length) ::
        (List.range entries.length).map
          (fun i => (i + 1, entries.length)) := by
  have h := extractFold_progress inflateRaw outputDir entries.length entries
    { current := 0, createdDirs := [], progress := [(0, entries.length)],
      actions := [], loggedErrors := [] }
  show (List.foldl (processEntry inflateRaw outputDir entries.length)
      { current := 0, createdDirs := [], progress := [(0, entries.length)],
        actions := [], loggedErrors := [] } entries).progress = _
  rw [h]
  show (0, entries.length) ::
    progressFrom 0 entries.length entries.length = _
  congr 1
  unfold progressFrom
  exact List.map_congr_left
    (fun a _ => congrArg (fun x => (x, entries.length)) (by omega))

/-! ## Claim C8 -/

theorem findEOCDScan_none_iff (b : List Nat) :
    ∀ (fuel off : Nat),
      findEOCDScan b off fuel = none ↔
        ∀ j, j ≤ fuel → ¬ readUInt32LE b (off - j) = eocdSignature := by
  intro fuel
  induction fuel with
  | zero =>
    intro off
    by_cases hs : readUInt32LE b off = eocdSignature
    · rw [findEOCDScan, if_pos hs]
      constructor
      · intro h
        exact absurd h (by simp)
      · intro h
        exact absurd hs (by simpa using h 0 (Nat.le_refl 0))
    · rw [findEOCDScan, if_neg hs]
      constructor
      · intro _ j hj
        have hj0 : j = 0 := Nat.le_zero.mp hj
        subst hj0
        simpa using hs
      · intro _
        rfl
  | succ n ih =>
    intro off
    by_cases hs : readUInt32LE b off = eocdSignature
    · constructor
      · intro h
        rw [findEOCDScan, if_pos hs] at h
        exact absurd h (by simp)
      · intro h
        exact absurd hs (by simpa using h 0 (Nat.zero_le _))
    · rw [findEOCDScan, if_neg hs, ih (off - 1)]
      constructor
      · intro h j hj
        cases j with
        | zero => simpa using hs
        | succ j2 =>
          have hrec := h j2 (Nat.lt_succ_iff.mp hj)
          have harith : off - 1 - j2 = off - (j2 + 1) := by omega
          rwa [harith] at hrec
      · intro h j hj
        have hrec := h (j + 1) (by omega)
        have harith : off - (j + 1) = off - 1 - j := by omega
        rwa [harith] at hrec

theorem findEOCD_none_iff (b : List Nat) :
    findEOCD b = none ↔
      ∀ off, b.length - maxScanLen b ≤ off →
        off + eocdMinSize ≤ b.length →
        ¬ readUInt32LE b off = eocdSignature := by
  have hm1 : maxScanLen b ≤ b.length := by
    unfold maxScanLen
    omega
  unfold findEOCD
  by_cases hlen : b.length < eocdMinSize
  · rw [if_pos hlen]
    constructor
    · intro _ off _ h2
      exact absurd h2 (by omega)
    · intro _
      rfl
  · have hm2 : eocdMinSize ≤ maxScanLen b := by
      unfold maxScanLen
      omega
    rw [if_neg hlen, findEOCDScan_none_iff]
    constructor
    · intro h off h1 h2
      have hj : (b.length - eocdMinSize) -
          ((b.length - eocdMinSize) - off) = off := by omega
      have hle : (b.length - eocdMinSize) - off ≤
          (b.length - eocdMinSize) - (b.length - maxScanLen b) := by omega
      have hrec := h _ hle
      rwa [hj] at hrec
    · intro h j hj
      exact h _ (by omega) (by omega)

theorem getEntries_some (b : List Nat) (e : Nat) (h : findEOCD b = some e) :
    getEntriesFromCentralDirectory b =
      if e < readUInt32LE b (e + 16) + readUInt32LE b (e + 12) then
        .error "Central Directory information seems corrupt."
      else
        .ok (parseCDLoop b
          (readUInt32LE b (e + 16) + readUInt32LE b (e + 12))
          (readUInt32LE b (e + 16)) (readUInt16LE b (e + 10)) []) := by
  unfold getEntriesFromCentralDirectory
  rw [h]

/-- C8: getEntriesFromCentralDirectory fails exactly in the two claimed
ways, and otherwise returns an index.  First conjunct: the not found
error is raised precisely when no end of central directory signature
occurs at any offset of the trailing scan window (the last 64KB plus 22
bytes of the buffer).  Second conjunct: once a signature is found at
eocdOffset, the corrupt error is raised precisely when the recorded
central directory offset plus size extends past the EOCD record.  Third
conjunct: the parse succeeds with an index exactly when a signature is
found and that bound holds. -/
theorem getEntriesFromCentralDirectory_error_characterization :
    (∀ b : List Nat,
      getEntriesFromCentralDirectory b =
          .error "End of Central Directory record not found." ↔
        ∀ off, b.length - maxScanLen b ≤ off →
          off + eocdMinSize ≤ b.length →
          ¬ readUInt32LE b off = eocdSignature) ∧
    (∀ (b : List Nat) (e : Nat), findEOCD b = some e →
      (getEntriesFromCentralDirectory b =
          .error "Central Directory information seems corrupt." ↔
        e < readUInt32LE b (e + 16) + readUInt32LE b (e + 12))) ∧
    (∀ b : List Nat,
      (∃ m, getEntriesFromCentralDirectory b = .ok m) ↔
        ∃ e, findEOCD b = some e ∧
          readUInt32LE b (e + 16) + readUInt32LE b (e + 12) ≤ e) := by
  refine ⟨?_, ?_, ?_⟩
  · intro b
    rw [← findEOCD_none_iff]
    cases h : findEOCD b with
    | none => simp [getEntriesFromCentralDirectory, h]
    | some e =>
      rw [getEntries_some b e h]
      constructor
      · intro hcontr
        by_cases hc : e < readUInt32LE b (e + 16) + readUInt32LE b (e + 12)
        · rw [if_pos hc] at hcontr
          exact absurd (Except.error.inj hcontr) (by decide)
        · rw [if_neg hc] at hcontr
          exact absurd hcontr (by simp)
      · intro hcontr
        exact absurd hcontr (by simp)
  · intro b e h
    rw [getEntries_some b e h]
    by_cases hc : e < readUInt32LE b (e + 16) + readUInt32LE b (e + 12)
    · rw [if_pos hc]
      exact iff_of_true rfl hc
    · rw [if_neg hc]
      constructor
      · intro hcontr
        exact absurd hcontr (by simp)
      · intro hcontr
        exact absurd hcontr hc
  · intro b
    cases h : findEOCD b with
    | none => simp [getEntriesFromCentralDirectory, h]
    | some e =>
      rw [getEntries_some b e h]
      by_cases hc : e < readUInt32LE b (e + 16) + readUInt32LE b (e + 12)
      · rw [if_pos hc]
        constructor
        · intro hex
          obtain ⟨m, hm⟩ := hex
          exact absurd hm (by simp)
        · intro hex
          obtain ⟨e2, he2, hle⟩ := hex
          obtain rfl := Option.some.inj he2
          exact absurd hle (by omega)
      · rw [if_neg hc]
        constructor
        · intro _
          exact ⟨e, rfl, by omega⟩
        · intro _
          exact ⟨_, rfl⟩

/-- C8 witness: the empty buffer yields the not found error (first
conjunct at an empty scan window); the 22 byte empty archive parses to
an index (third conjunct); an EOCD whose recorded central directory
offset runs past the record yields the corrupt error (second
conjunct). -/
theorem getEntriesFromCentralDirectory_error_characterization_witness :
    getEntriesFromCentralDirectory [] =
        .error "End of Central Directory record not found." ∧
    (∃ m, getEntriesFromCentralDirectory emptyZip = .ok m) ∧
    getEntriesFromCentralDirectory (eocdBlock 0 0 1) =
        .error "Central Directory information seems corrupt." :=
  ⟨(getEntriesFromCentralDirectory_error_characterization.1 []).mpr
      (fun off _h1 h2 => by simp [eocdMinSize] at h2),
    (getEntriesFromCentralDirectory_error_characterization.2.2 emptyZip).mpr
      ⟨0, by decide, by decide⟩,
    (getEntriesFromCentralDirectory_error_characterization.2.1
        (eocdBlock 0 0 1) 0 (by decide)).mpr (by decide)⟩

end Mcprofile
